import Mathlib

/-!
Shallow embedding of the FinanceSaathi invoice-extraction pipeline
(src/src/App.tsx): the Field Extractor (`extractExpenseFromOCR`), the
Fallback Generator (`generateMockExpense`), the fallback pipeline path
(`processFallbackData` / `processFileWithOCR`) and the Aggregator
(`getExpenseSummary`, `getCategoryData`).

Text is modelled as `List Char`; JS numbers appearing as parsed amounts
are modelled as `ℚ` (all values involved are exact decimals, so `ℚ` is
exact where IEEE doubles are exact).  `Math.random()` results are
modelled as explicit `ℚ` parameters `r` with `0 ≤ r < 1`.  `Date.now()`,
the current year and today's date string are explicit parameters.
-/

/-- ASCII digit test (JS `\d`). -/
def isAsciiDigit (c : Char) : Bool := '0' ≤ c && c ≤ '9'

/-- JS `\s` for the ASCII range (the texts involved use only these). -/
def isJsSpace (c : Char) : Bool :=
  c = ' ' || c = '\t' || c = '\n' || c = '\r' || c = '\x0b' || c = '\x0c'

/-- Lower-casing of an ASCII letter, for the regexes' `i` flag and
`toLowerCase()`. -/
def jsLower (c : Char) : Char :=
  if 'A' ≤ c && c ≤ 'Z' then Char.ofNat (c.toNat + 32) else c

/-- Numeric value of a decimal digit character. -/
def digitVal (c : Char) : ℕ := c.toNat - '0'.toNat

/-- Value of a string of decimal digits. -/
def digitsToNat (l : List Char) : ℕ := l.foldl (fun a c => a * 10 + digitVal c) 0

/-- The JS `parseFloat` applied to the comma-stripped capture
`<intPart>.<fracPart>`: the regexes only ever capture an integer part
plus an optional exactly-2-digit fraction. -/
def numValue (ip fp : List Char) : ℚ :=
  (digitsToNat ip : ℚ) + (digitsToNat fp : ℚ) / 100

/-- Case-insensitive character comparison. -/
def lcEq (a b : Char) : Bool := jsLower a = jsLower b

/-- Match a fixed keyword case-insensitively at the head of `s`,
returning the remainder on success. -/
def stripKeyword : List Char → List Char → Option (List Char)
  | [], s => some s
  | _ :: _, [] => none
  | k :: ks, c :: cs => if lcEq k c then stripKeyword ks cs else none

/-- The label alternation `(?:total|amount|grand total|net amount)` of
`totalPattern`, tried in JS alternation order (the four alternatives
start with distinct letters, so at most one can match at a position). -/
def matchLabel (s : List Char) : Option (List Char) :=
  match stripKeyword "total".toList s with
  | some r => some r
  | none =>
    match stripKeyword "amount".toList s with
    | some r => some r
    | none =>
      match stripKeyword "grand total".toList s with
      | some r => some r
      | none => stripKeyword "net amount".toList s

/-- The `(?:,\d{3})*` part of the amount capture: greedily consume
groups of a comma followed by exactly three digits. -/
def commaGroups : List Char → List Char × List Char
  | ',' :: a :: b :: c :: rest =>
    if isAsciiDigit a && isAsciiDigit b && isAsciiDigit c then
      let (g, r) := commaGroups rest
      (a :: b :: c :: g, r)
    else ([], ',' :: a :: b :: c :: rest)
  | s => ([], s)

/-- The `(?:\.\d{2})?` part of the amount capture. -/
def fracGroup : List Char → List Char × List Char
  | '.' :: a :: b :: rest =>
    if isAsciiDigit a && isAsciiDigit b then ([a, b], rest)
    else ([], '.' :: a :: b :: rest)
  | s => ([], s)

/-- The capture `(\d{1,3}(?:,\d{3})*(?:\.\d{2})?)` at the head of `s`:
returns (integer-part digits with thousands separators stripped,
fraction digits, remainder).  `\d{1,3}` is greedy (up to three leading
digits); nothing follows the capture in either amount regex, so no
backtracking can occur. -/
def matchNumber (s : List Char) : Option (List Char × List Char × List Char) :=
  let run := s.takeWhile isAsciiDigit
  if run.isEmpty then none
  else
    let d := run.take 3
    let s1 := s.drop d.length
    let (g, s2) := commaGroups s1
    let (f, s3) := fracGroup s2
    some (d ++ g, f, s3)

/-- The `[\s:]*` part after the label. -/
def skipLabelSep (s : List Char) : List Char := s.dropWhile (fun c => isJsSpace c || c = ':')

/-- The `\s*` part. -/
def skipSpaces (s : List Char) : List Char := s.dropWhile isJsSpace

/-- One attempt of `totalPattern`
`/(?:total|amount|grand total|net amount)[\s:]*₹?\s*(\d{1,3}(?:,\d{3})*(?:\.\d{2})?)/gi`
at the head of `s`: on success, the capture split into (integer digits,
fraction digits), and the remainder of the text. -/
def matchTotalAt (s : List Char) : Option ((List Char × List Char) × List Char) :=
  match matchLabel s with
  | none => none
  | some r1 =>
    let r2 := skipLabelSep r1
    let r3 := match r2 with
      | '₹' :: t => skipSpaces t
      | _ => r2
    match matchNumber r3 with
    | none => none
    | some (ip, fp, rest) => some ((ip, fp), rest)

/-- One attempt of `amountPattern` `/₹\s*(\d{1,3}(?:,\d{3})*(?:\.\d{2})?)/g`
at the head of `s`. -/
def matchRupeeAt (s : List Char) : Option ((List Char × List Char) × List Char) :=
  match s with
  | '₹' :: t =>
    match matchNumber (skipSpaces t) with
    | none => none
    | some (ip, fp, rest) => some ((ip, fp), rest)
  | _ => none

/-- The `matchAll` scanning for `totalPattern`: leftmost matches, resuming
after each match.  `fuel` is an upper bound on steps; every successful
match consumes at least one character, so `fuel = s.length` is always
enough. -/
def scanTotal : ℕ → List Char → List (List Char × List Char)
  | 0, _ => []
  | _, [] => []
  | fuel + 1, c :: rest =>
    match matchTotalAt (c :: rest) with
    | some (cap, r) => cap :: scanTotal fuel r
    | none => scanTotal fuel rest

/-- Captures of all `totalPattern` matches, in text order. -/
def totalCaptures (s : List Char) : List (List Char × List Char) := scanTotal s.length s

/-- Numeric values of all `totalPattern` matches
(`parseFloat(match[1].replace(/,/g, ''))`). -/
def totalAmounts (s : List Char) : List ℚ :=
  (totalCaptures s).map (fun p => numValue p.1 p.2)

/-- The `matchAll` scanning for `amountPattern`. -/
def scanRupee : ℕ → List Char → List (List Char × List Char)
  | 0, _ => []
  | _, [] => []
  | fuel + 1, c :: rest =>
    match matchRupeeAt (c :: rest) with
    | some (cap, r) => cap :: scanRupee fuel r
    | none => scanRupee fuel rest

/-- Captures of all `amountPattern` matches, in text order. -/
def rupeeCaptures (s : List Char) : List (List Char × List Char) := scanRupee s.length s

/-- Numeric values of all `amountPattern` matches. -/
def rupeeAmounts (s : List Char) : List ℚ :=
  (rupeeCaptures s).map (fun p => numValue p.1 p.2)

/-- The amount-resolution policy of `extractExpenseFromOCR` (lines
211-221): first labeled match if any, else the maximum over all
currency-glyph matches (`Math.max(...amounts)`), else 0. -/
def resolveAmount (s : List Char) : ℚ :=
  match totalAmounts s with
  | q :: _ => q
  | [] =>
    match rupeeAmounts s with
    | [] => 0
    | q :: qs => qs.foldl max q

/-- Exactly `n` digits, the `\d{n}` piece. -/
def matchDigitsN : ℕ → List Char → Option (List Char × List Char)
  | 0, s => some ([], s)
  | _ + 1, [] => none
  | n + 1, c :: rest =>
    if isAsciiDigit c then
      match matchDigitsN n rest with
      | some (d, r) => some (c :: d, r)
      | none => none
    else none

/-- The separator class `[\/\-]`. -/
def isDateSep (c : Char) : Bool := c = '/' || c = '-'

/-- The `\d{2,4}` year at the end of `datePattern`: greedy, nothing follows. -/
def matchYear (s : List Char) : Option (List Char × List Char) :=
  let y := (s.takeWhile isAsciiDigit).take 4
  if 2 ≤ y.length then some (y, s.drop y.length) else none

/-- Separator then year. -/
def matchSepYear (s : List Char) : Option (List Char × List Char) :=
  match s with
  | c :: rest => if isDateSep c then matchYear rest else none
  | [] => none

/-- Month (`n` digits) then separator then year. -/
def matchMYn (n : ℕ) (s : List Char) : Option ((List Char × List Char) × List Char) :=
  match matchDigitsN n s with
  | some (m, s1) =>
    match matchSepYear s1 with
    | some (y, r) => some ((m, y), r)
    | none => none
  | none => none

/-- Day (`n` digits), separator, then month/year; greedy `\d{1,2}` for
the month: two digits tried before one. -/
def matchDMYn (n : ℕ) (s : List Char) : Option ((List Char × List Char × List Char) × List Char) :=
  match matchDigitsN n s with
  | some (d, s1) =>
    match s1 with
    | c :: s2 =>
      if isDateSep c then
        match (matchMYn 2 s2).orElse (fun _ => matchMYn 1 s2) with
        | some ((m, y), r) => some ((d, m, y), r)
        | none => none
      else none
    | [] => none
  | none => none

/-- One attempt of `datePattern` `/(\d{1,2})[\/\-](\d{1,2})[\/\-](\d{2,4})/g`
at the head of `s`; greedy `\d{1,2}` for the day. -/
def matchDateAt (s : List Char) : Option ((List Char × List Char × List Char) × List Char) :=
  (matchDMYn 2 s).orElse (fun _ => matchDMYn 1 s)

/-- First `datePattern` match in the text (`dateMatches[0]`). -/
def scanDate : ℕ → List Char → Option (List Char × List Char × List Char)
  | 0, _ => none
  | _, [] => none
  | fuel + 1, c :: rest =>
    match matchDateAt (c :: rest) with
    | some (dmy, _) => some dmy
    | none => scanDate fuel rest

/-- First date-pattern match of the whole text, as (day, month, year)
capture strings. -/
def firstDate (s : List Char) : Option (List Char × List Char × List Char) :=
  scanDate s.length s

/-- The JS `padStart(2, '0')`. -/
def padStart2 (l : List Char) : List Char := List.replicate (2 - l.length) '0' ++ l

/-- Two-digit years are prefixed with "20" (line 227). -/
def expandYear (y : List Char) : List Char := if y.length = 2 then '2' :: '0' :: y else y

/-- The template `` `${fullYear}-${month.padStart(2,'0')}-${day.padStart(2,'0')}` ``. -/
def formatDate (d m y : List Char) : List Char :=
  expandYear y ++ '-' :: (padStart2 m ++ '-' :: padStart2 d)

/-- Date resolution of the Field Extractor (lines 223-229): first
`datePattern` match formatted as above, else today's processing date. -/
def extractDate (s today : List Char) : List Char :=
  match firstDate s with
  | some (d, m, y) => formatDate d m y
  | none => today

/-- Case-sensitive substring test (JS `String.includes`). -/
def containsSub : List Char → List Char → Bool
  | [], needle => needle.isEmpty
  | c :: t, needle => needle.isPrefixOf (c :: t) || containsSub t needle

/-- Case-insensitive substring test (a `/keyword/i` regex test). -/
def containsCI (hay needle : List Char) : Bool :=
  containsSub (hay.map jsLower) (needle.map jsLower)

/-- The ordered vendor keyword groups of lines 192-209.  The source
re-tests the matched pattern against literal strings
(`pattern.test('swiggy')` …) to dispatch; the net effect is this fixed
group → canonical-vendor mapping (a `zomato` match also yields
"Swiggy Corporate" because pattern 1 tests true on the literal
'swiggy'). -/
def vendorGroups : List (List (List Char) × List Char) :=
  [ (["swiggy".toList, "zomato".toList], "Swiggy Corporate".toList)
  , (["amazon".toList, "flipkart".toList], "Amazon Business".toList)
  , (["reliance".toList, "jio".toList], "Reliance Digital".toList)
  , (["uber".toList, "ola".toList], "Uber Business".toList)
  , (["airtel".toList, "vodafone".toList], "Airtel Business".toList) ]

/-- The test `pattern.test(text) || pattern.test(filename)`. -/
def groupTest (kws : List (List Char)) (text filename : List Char) : Bool :=
  kws.any (fun k => containsCI text k) || kws.any (fun k => containsCI filename k)

/-- Vendor detection (lines 186-209): first matching group wins, no
match leaves the sentinel. -/
def detectVendor (text filename : List Char) : List Char :=
  match vendorGroups.find? (fun g => groupTest g.1 text filename) with
  | some g => g.2
  | none => "Unknown Vendor".toList

/-- Category inference from the resolved vendor (lines 231-236),
case-sensitive `String.includes` checks, default 'General'. -/
def inferCategory (vendor : List Char) : List Char :=
  if containsSub vendor "Swiggy".toList || containsSub vendor "Zomato".toList then
    "Food & Entertainment".toList
  else if containsSub vendor "Amazon".toList || containsSub vendor "Flipkart".toList then
    "Office Supplies".toList
  else if containsSub vendor "Uber".toList || containsSub vendor "Ola".toList then
    "Travel".toList
  else if containsSub vendor "Reliance".toList || containsSub vendor "Jio".toList then
    "Utilities".toList
  else if containsSub vendor "Airtel".toList || containsSub vendor "Vodafone".toList then
    "Utilities".toList
  else "General".toList

/-- Indexing `list[Math.floor(r * list.length)]` for a `Math.random()` result `r`. -/
def pickAt (l : List (List Char)) (r : ℚ) : List Char :=
  l.getD (⌊r * l.length⌋).toNat []

/-- The fixed vendor list of `getRandomVendor` (lines 167-173). -/
def randomVendors : List (List Char) :=
  [ "Swiggy Corporate".toList, "Amazon Business".toList, "Reliance Digital".toList
  , "Uber Business".toList, "Airtel Business".toList, "Microsoft India".toList
  , "Google Workspace".toList ]

/-- The fixed payment-method list (lines 175-178). -/
def paymentMethods : List (List Char) :=
  [ "UPI".toList, "Credit Card".toList, "Bank Transfer".toList, "Cash".toList
  , "Auto Debit".toList ]

/-- Decimal digits of a natural number (JS number-to-string in template
literals). -/
def natToDigits (n : ℕ) : List Char := Nat.toDigits 10 n

/-- The JS `padStart(3, '0')`. -/
def padStart3 (l : List Char) : List Char := List.replicate (3 - l.length) '0' ++ l

/-- The template `` `INV-${year}-${String(Math.floor(Math.random()*999)+1).padStart(3,'0')}` ``. -/
def invoiceNum (year : ℕ) (r : ℚ) : List Char :=
  "INV-".toList ++ natToDigits year ++ '-' :: padStart3 (natToDigits ((⌊r * 999⌋).toNat + 1))

/-- The synthetic amount of the low-confidence override (line 240):
`Math.floor(Math.random() * (25000 - 1250) + 1250)`. -/
def overrideAmount (r : ℚ) : ℤ := ⌊r * (25000 - 1250) + 1250⌋

/-- The synthetic amount of the Fallback Generator (line 271):
`Math.floor(Math.random() * 23750) + 1250`. -/
def mockAmount (r : ℚ) : ℤ := ⌊r * 23750⌋ + 1250

/-- The `Expense` record of App.tsx (lines 26-39); optional fields are
`Option`. -/
structure Expense where
  id : List Char
  vendor : List Char
  amount : ℚ
  category : List Char
  date : List Char
  invoiceNumber : List Char
  status : List Char
  paymentMethod : List Char
  uploadId : Option (List Char)
  filename : Option (List Char)
  extractedText : Option (List Char)
  confidence : Option ℚ
deriving DecidableEq

/-- The `UploadedFile` record of App.tsx (lines 5-14). -/
structure UploadedFile where
  id : List Char
  filename : List Char
  filesize : ℕ
  uploadDate : List Char
  processed : Bool
  fileData : Option (List Char)
  extractedText : Option (List Char)
  confidence : Option ℚ
deriving DecidableEq

/-- The four `Math.random()` draws consumed by `extractExpenseFromOCR`,
in source order: override amount, override vendor, invoice number,
payment method. -/
structure OcrRand where
  rAmount : ℚ
  rVendor : ℚ
  rInv : ℚ
  rPay : ℚ

/-- The Field Extractor `extractExpenseFromOCR` (lines 180-257).
`today` is the ISO date prefix of `new Date()`, `now` is `Date.now()`,
`year` the current year. -/
def extractExpenseFromOCR (text : List Char) (confidence : ℚ) (filename uploadId : List Char)
    (today : List Char) (now year : ℕ) (rnd : OcrRand) : Expense :=
  let vendor0 := detectVendor text filename
  let amount0 := resolveAmount text
  let date := extractDate text today
  let category := inferCategory vendor0
  let lowConf := confidence < 60 ∨ amount0 = 0
  let amount := if lowConf then ((overrideAmount rnd.rAmount : ℤ) : ℚ) else amount0
  let vendor := if lowConf then
      (if vendor0 = "Unknown Vendor".toList then pickAt randomVendors rnd.rVendor else vendor0)
    else vendor0
  { id := "exp_".toList ++ natToDigits now
  , vendor := vendor
  , amount := amount
  , category := category
  , date := date
  , invoiceNumber := invoiceNum year rnd.rInv
  , status := "processed".toList
  , paymentMethod := pickAt paymentMethods rnd.rPay
  , uploadId := some uploadId
  , filename := none
  , extractedText := some (text.take 500)
  , confidence := some confidence }

/-- The 12-vendor list of `generateMockExpense` (lines 260-264). -/
def mockVendors : List (List Char) :=
  [ "Swiggy Corporate".toList, "Amazon Business".toList, "Reliance Digital".toList
  , "Flipkart Business".toList, "Uber Business".toList, "Ola Corporate".toList
  , "BigBasket".toList, "Zomato Business".toList, "Paytm Business".toList
  , "HDFC Bank".toList, "Airtel Business".toList, "Jio Business".toList ]

/-- The category list of `generateMockExpense` (line 266). -/
def mockCategories : List (List Char) :=
  [ "Office Supplies".toList, "Travel".toList, "Food & Entertainment".toList
  , "Equipment".toList, "Utilities".toList, "Professional Services".toList ]

/-- The `Math.random()` draws consumed by `generateMockExpense`, in
source order. -/
structure MockRand where
  rVendor : ℚ
  rCat : ℚ
  rAmount : ℚ
  rPay : ℚ
  rInv : ℚ

/-- The Fallback Generator `generateMockExpense` (lines 259-286). -/
def generateMockExpense (uploadedFile : UploadedFile) (today : List Char) (now year : ℕ)
    (rnd : MockRand) : Expense :=
  { id := "exp_".toList ++ natToDigits now
  , vendor := pickAt mockVendors rnd.rVendor
  , amount := ((mockAmount rnd.rAmount : ℤ) : ℚ)
  , category := pickAt mockCategories rnd.rCat
  , date := today
  , invoiceNumber := invoiceNum year rnd.rInv
  , status := "processed".toList
  , paymentMethod := pickAt paymentMethods rnd.rPay
  , uploadId := some uploadedFile.id
  , filename := some uploadedFile.filename
  , extractedText := none
  , confidence := none }

/-- The two persisted collections (`financeUploads`, `financeExpenses`). -/
structure Stores where
  uploads : List UploadedFile
  expenses : List Expense
deriving DecidableEq

/-- The fallback path `processFallbackData` (lines 366-407): appends one
UploadedFile with `confidence: 0` and one mock Expense; completes
without surfacing any error. -/
def processFallbackData (st : Stores) (filename : List Char) (filesize : ℕ)
    (fileData uploadDate today : List Char) (now year : ℕ) (rnd : MockRand) : Stores :=
  let uf : UploadedFile :=
    { id := "upload_".toList ++ natToDigits now
    , filename := filename
    , filesize := filesize
    , uploadDate := uploadDate
    , processed := true
    , fileData := some fileData
    , extractedText := none
    , confidence := some 0 }
  let exp := generateMockExpense uf today now year rnd
  { uploads := st.uploads ++ [uf], expenses := st.expenses ++ [exp] }

/-- Result of a Text Acquisition attempt: extracted text and confidence
on success, or any thrown error. -/
def AcqResult := Except Unit (List Char × ℚ)

/-- The pipeline `processFileWithOCR` (lines 303-364) restricted to its store and
error effects: on acquisition success, append the document and the
extracted record; on any thrown error, run the fallback path.  The
second component is the user-facing error (`uploadState.error`), which
this function never sets. -/
def processFileWithOCR (st : Stores) (acq : AcqResult) (filename : List Char) (filesize : ℕ)
    (fileData uploadDate today : List Char) (now year : ℕ) (ornd : OcrRand) (mrnd : MockRand) :
    Stores × Option (List Char) :=
  match acq with
  | Except.ok (text, confidence) =>
    let uf : UploadedFile :=
      { id := "upload_".toList ++ natToDigits now
      , filename := filename
      , filesize := filesize
      , uploadDate := uploadDate
      , processed := true
      , fileData := some fileData
      , extractedText := some text
      , confidence := some confidence }
    let exp := extractExpenseFromOCR text confidence filename uf.id today now year ornd
    ({ uploads := st.uploads ++ [uf], expenses := st.expenses ++ [exp] }, none)
  | Except.error _ =>
    (processFallbackData st filename filesize fileData uploadDate today now year mrnd, none)

/-- The `ExpenseSummary` record (lines 41-47). -/
structure ExpenseSummary where
  total : ℚ
  thisMonth : ℚ
  transactionCount : ℕ
  averageTransaction : ℚ
  topCategory : List Char
deriving DecidableEq

/-- The update `categoryTotals[cat] = (categoryTotals[cat] || 0) + amount` on a JS
object with string keys: an insertion-ordered association list. -/
def addTotal : List (List Char × ℚ) → List Char → ℚ → List (List Char × ℚ)
  | [], k, v => [(k, v)]
  | (k', v') :: t, k, v =>
    if k' = k then (k', v' + v) :: t else (k', v') :: addTotal t k v

/-- The `categoryTotals` accumulation of lines 523-526 / 537-541. -/
def categoryTotals (expenses : List Expense) : List (List Char × ℚ) :=
  expenses.foldl (fun acc e => addTotal acc e.category e.amount) []

/-- JS property read `obj[k]`: `undefined` for an absent key. -/
def lookupTotal (l : List (List Char × ℚ)) (k : List Char) : Option ℚ :=
  (l.find? (fun p => p.1 = k)).map (fun p => p.2)

/-- JS `a > b` on possibly-`undefined` operands: any comparison with
`undefined` is false. -/
def optGt : Option ℚ → Option ℚ → Bool
  | some a, some b => decide (b < a)
  | _, _ => false

/-- The `topCategory` reduce of lines 528-530:
`Object.keys(categoryTotals).reduce((a, b) => categoryTotals[a] > categoryTotals[b] ? a : b, 'Office Supplies')`. -/
def topCategory (expenses : List Expense) : List Char :=
  let ct := categoryTotals expenses
  (ct.map (fun p => p.1)).foldl
    (fun a b => if optGt (lookupTotal ct a) (lookupTotal ct b) then a else b)
    "Office Supplies".toList

/-- The aggregate `getExpenseSummary` (lines 512-533); `currentMonth` is the `YYYY-MM`
slice of today's ISO timestamp. -/
def getExpenseSummary (expenses : List Expense) (currentMonth : List Char) : ExpenseSummary :=
  let total := expenses.foldl (fun s e => s + e.amount) 0
  let transactionCount := expenses.length
  let averageTransaction := if transactionCount > 0 then total / (transactionCount : ℚ) else 0
  let thisMonth := (expenses.filter (fun e => currentMonth.isPrefixOf e.date)).foldl
    (fun s e => s + e.amount) 0
  { total := total
  , thisMonth := thisMonth
  , transactionCount := transactionCount
  , averageTransaction := averageTransaction
  , topCategory := topCategory expenses }

/-- The JS `Math.round`: round half toward positive infinity. -/
def jsRound (q : ℚ) : ℤ := ⌊q + 1 / 2⌋

/-- The breakdown `getCategoryData` (lines 535-548): per-category summed amount and
rounded percentage of the grand total. -/
def getCategoryData (expenses : List Expense) : List (List Char × ℚ × ℤ) :=
  let ct := categoryTotals expenses
  let total := expenses.foldl (fun s e => s + e.amount) 0
  ct.map (fun p => (p.1, p.2, jsRound (p.2 / total * 100)))

/-- The binary step of the `topCategory` reduce, abstracted over the
totals lookup. -/
def pickArg (tot : List Char → Option ℚ) (a b : List Char) : List Char :=
  if optGt (tot a) (tot b) then a else b

/-- Order on possibly-absent totals: `none` is below everything. -/
def optLe (a b : Option ℚ) : Prop := ∀ x, a = some x → ∃ y, b = some y ∧ x ≤ y

/-- A minimal stored record with the given category and amount, for
concrete aggregator scenarios. -/
def sampleExpense (cat : List Char) (amt : ℚ) : Expense :=
  { id := [], vendor := [], amount := amt, category := cat, date := [], invoiceNumber := []
  , status := [], paymentMethod := [], uploadId := none, filename := none
  , extractedText := none, confidence := none }

/-! ### Helper lemmas -/

theorem numValue_of_digits (ip fp : List Char) (a b : ℕ) (ha : digitsToNat ip = a)
    (hb : digitsToNat fp = b) : numValue ip fp = (a : ℚ) + (b : ℚ) / 100 := by
  rw [numValue, ha, hb]

theorem numValue_nonneg (ip fp : List Char) : 0 ≤ numValue ip fp := by
  unfold numValue
  positivity

theorem mem_totalAmounts_nonneg (s : List Char) (q : ℚ) (hq : q ∈ totalAmounts s) : 0 ≤ q := by
  unfold totalAmounts at hq
  obtain ⟨p, _, rfl⟩ := List.mem_map.mp hq
  exact numValue_nonneg p.1 p.2

theorem mem_rupeeAmounts_nonneg (s : List Char) (q : ℚ) (hq : q ∈ rupeeAmounts s) : 0 ≤ q := by
  unfold rupeeAmounts at hq
  obtain ⟨p, _, rfl⟩ := List.mem_map.mp hq
  exact numValue_nonneg p.1 p.2

theorem left_le_foldl_max (l : List ℚ) : ∀ q : ℚ, q ≤ l.foldl max q := by
  induction l with
  | nil => intro q; exact le_refl q
  | cons a t ih =>
    intro q
    exact le_trans (le_max_left q a) (ih (max q a))

theorem mem_le_foldl_max (l : List ℚ) : ∀ q : ℚ, ∀ x ∈ l, x ≤ l.foldl max q := by
  induction l with
  | nil => intro q x hx; cases hx
  | cons a t ih =>
    intro q x hx
    rcases List.mem_cons.mp hx with h | h
    · subst h
      exact le_trans (le_max_right q x) (left_le_foldl_max t (max q x))
    · exact ih (max q a) x h

theorem foldl_max_mem (l : List ℚ) : ∀ q : ℚ, l.foldl max q ∈ q :: l := by
  induction l with
  | nil => intro q; exact List.mem_singleton.mpr rfl
  | cons a t ih =>
    intro q
    rcases List.mem_cons.mp (ih (max q a)) with h | h
    · rcases max_choice q a with hm | hm
      · exact List.mem_cons.mpr (Or.inl (h.trans hm))
      · exact List.mem_cons.mpr (Or.inr (List.mem_cons.mpr (Or.inl (h.trans hm))))
    · exact List.mem_cons.mpr (Or.inr (List.mem_cons.mpr (Or.inr h)))

theorem resolveAmount_nonneg (s : List Char) : 0 ≤ resolveAmount s := by
  unfold resolveAmount
  cases ht : totalAmounts s with
  | cons q l =>
    exact mem_totalAmounts_nonneg s q (ht ▸ List.mem_cons_self q l)
  | nil =>
    cases hr : rupeeAmounts s with
    | nil => exact le_refl 0
    | cons q qs =>
      have hq : 0 ≤ q := mem_rupeeAmounts_nonneg s q (hr ▸ List.mem_cons_self q qs)
      exact le_trans hq (left_le_foldl_max qs q)

/-- Field-level unfolding of the extractor: the amount. -/
theorem extract_amount_def (text : List Char) (conf : ℚ) (fn uid today : List Char)
    (now year : ℕ) (rnd : OcrRand) :
    (extractExpenseFromOCR text conf fn uid today now year rnd).amount =
      if conf < 60 ∨ resolveAmount text = 0 then ((overrideAmount rnd.rAmount : ℤ) : ℚ)
      else resolveAmount text := rfl

/-- Field-level unfolding of the extractor: the vendor. -/
theorem extract_vendor_def (text : List Char) (conf : ℚ) (fn uid today : List Char)
    (now year : ℕ) (rnd : OcrRand) :
    (extractExpenseFromOCR text conf fn uid today now year rnd).vendor =
      if conf < 60 ∨ resolveAmount text = 0 then
        (if detectVendor text fn = "Unknown Vendor".toList then pickAt randomVendors rnd.rVendor
         else detectVendor text fn)
      else detectVendor text fn := rfl

/-- Field-level unfolding of the extractor: the date. -/
theorem extract_date_def (text : List Char) (conf : ℚ) (fn uid today : List Char)
    (now year : ℕ) (rnd : OcrRand) :
    (extractExpenseFromOCR text conf fn uid today now year rnd).date = extractDate text today := rfl

theorem overrideAmount_lb (r : ℚ) (hr : 0 ≤ r) : 1250 ≤ overrideAmount r := by
  unfold overrideAmount
  rw [Int.le_floor]
  push_cast
  nlinarith

theorem overrideAmount_ub (r : ℚ) (hr : r < 1) : overrideAmount r ≤ 24999 := by
  have h : overrideAmount r < 25000 := by
    unfold overrideAmount
    rw [Int.floor_lt]
    push_cast
    nlinarith
  omega

theorem mockAmount_lb (r : ℚ) (hr : 0 ≤ r) : 1250 ≤ mockAmount r := by
  unfold mockAmount
  have h : (0 : ℤ) ≤ ⌊r * 23750⌋ := by
    rw [Int.le_floor]
    push_cast
    nlinarith
  omega

theorem mockAmount_ub (r : ℚ) (hr : r < 1) : mockAmount r ≤ 24999 := by
  unfold mockAmount
  have h : ⌊r * 23750⌋ < 23750 := by
    rw [Int.floor_lt]
    push_cast
    nlinarith
  omega

theorem pickAt_mem (l : List (List Char)) (r : ℚ) (hl : l ≠ []) (h0 : 0 ≤ r) (h1 : r < 1) :
    pickAt l r ∈ l := by
  unfold pickAt
  have hlen : 0 < (l.length : ℚ) := by
    have := List.length_pos.mpr hl
    exact_mod_cast this
  have hfl : (0 : ℤ) ≤ ⌊r * l.length⌋ := by
    rw [Int.le_floor]
    push_cast
    positivity
  have hfu : ⌊r * l.length⌋ < (l.length : ℤ) := by
    rw [Int.floor_lt]
    push_cast
    nlinarith
  have hidx : (⌊r * l.length⌋).toNat < l.length := by omega
  rw [List.getD_eq_getElem l [] hidx]
  exact List.getElem_mem hidx

/-! ### Claims -/

/-- C1: the Field Extractor's amount resolution policy.  If the
labeled-amount pattern yields at least one match, the amount is the
first match's numeric value (thousands separators stripped by
construction of `totalAmounts`); otherwise, if the currency-glyph
pattern yields at least one match, the amount is the maximum numeric
value among all such matches (it belongs to the match list and
dominates every element); otherwise it is 0.  In particular, text with
no labeled total and rupee-prefixed amounts 500, 12000, 3000 resolves
to 12000. -/
theorem C1_amount_resolution :
    (∀ t q l, totalAmounts t = q :: l → resolveAmount t = q)
    ∧ (∀ t, totalAmounts t = [] → rupeeAmounts t ≠ [] →
        resolveAmount t ∈ rupeeAmounts t ∧ ∀ x ∈ rupeeAmounts t, x ≤ resolveAmount t)
    ∧ (∀ t, totalAmounts t = [] → rupeeAmounts t = [] → resolveAmount t = 0)
    ∧ (totalAmounts "₹500 ₹12,000 ₹3,000".toList = []
        ∧ resolveAmount "₹500 ₹12,000 ₹3,000".toList = 12000) := by
  refine ⟨?_, ?_, ?_, ?_, ?_⟩
  · intro t q l h
    simp only [resolveAmount, h]
  · intro t ht hr
    rcases hl : rupeeAmounts t with _ | ⟨q, qs⟩
    · exact absurd hl hr
    · have hres : resolveAmount t = qs.foldl max q := by
        simp only [resolveAmount, ht, hl]
      constructor
      · rw [hres]
        exact foldl_max_mem qs q
      · intro x hx
        rw [hres]
        rcases List.mem_cons.mp hx with h | h
        · exact h ▸ left_le_foldl_max qs x
        · exact mem_le_foldl_max qs q x h
  · intro t ht hr
    simp only [resolveAmount, ht, hr]
  · unfold totalAmounts
    rw [show totalCaptures "₹500 ₹12,000 ₹3,000".toList = [] from by decide]
    rfl
  · unfold resolveAmount totalAmounts rupeeAmounts
    rw [show totalCaptures "₹500 ₹12,000 ₹3,000".toList = [] from by decide,
        show rupeeCaptures "₹500 ₹12,000 ₹3,000".toList =
          [("500".toList, []), ("12000".toList, []), ("3000".toList, [])] from by decide]
    simp only [List.map, List.foldl]
    rw [numValue_of_digits _ _ 500 0 (by decide) (by decide),
        numValue_of_digits _ _ 12000 0 (by decide) (by decide),
        numValue_of_digits _ _ 3000 0 (by decide) (by decide)]
    rw [max_def, max_def]
    norm_num

/-- Witness for C1: on a text with a labeled total, the resolved amount
is the first labeled match's value. -/
theorem C1_amount_resolution_witness :
    resolveAmount "Total: ₹1,250.50 and ₹9,999".toList = 1250.5 := by
  have h : totalAmounts "Total: ₹1,250.50 and ₹9,999".toList = 1250.5 :: [] := by
    unfold totalAmounts
    rw [show totalCaptures "Total: ₹1,250.50 and ₹9,999".toList =
      [("1250".toList, "50".toList)] from by decide]
    simp only [List.map]
    rw [numValue_of_digits _ _ 1250 50 (by decide) (by decide)]
    norm_num
  exact C1_amount_resolution.1 _ _ _ h

/-- C2: the low-confidence / failed-amount override.  If
`confidence < 60` or the resolved amount is 0, the returned amount is
the synthetic draw (a positive value), and the vendor is redrawn from
the fixed list only when it was still "Unknown Vendor" (a recognised
vendor is kept).  Otherwise neither amount nor vendor is replaced. -/
theorem C2_override_rule (text : List Char) (conf : ℚ) (fn uid today : List Char)
    (now year : ℕ) (rnd : OcrRand) (h0 : 0 ≤ rnd.rAmount) (h1 : rnd.rAmount < 1)
    (h2 : 0 ≤ rnd.rVendor) (h3 : rnd.rVendor < 1) :
    ((conf < 60 ∨ resolveAmount text = 0) →
      (extractExpenseFromOCR text conf fn uid today now year rnd).amount =
        ((overrideAmount rnd.rAmount : ℤ) : ℚ)
      ∧ 0 < (extractExpenseFromOCR text conf fn uid today now year rnd).amount
      ∧ (detectVendor text fn ≠ "Unknown Vendor".toList →
          (extractExpenseFromOCR text conf fn uid today now year rnd).vendor =
            detectVendor text fn)
      ∧ (detectVendor text fn = "Unknown Vendor".toList →
          (extractExpenseFromOCR text conf fn uid today now year rnd).vendor ∈ randomVendors))
    ∧ (¬ conf < 60 → resolveAmount text ≠ 0 →
      (extractExpenseFromOCR text conf fn uid today now year rnd).amount = resolveAmount text
      ∧ (extractExpenseFromOCR text conf fn uid today now year rnd).vendor =
          detectVendor text fn) := by
  constructor
  · intro h
    have hfire : (extractExpenseFromOCR text conf fn uid today now year rnd).amount =
        ((overrideAmount rnd.rAmount : ℤ) : ℚ) := by
      rw [extract_amount_def, if_pos h]
    refine ⟨hfire, ?_, ?_, ?_⟩
    · rw [hfire]
      have hlb := overrideAmount_lb rnd.rAmount h0
      have : (1250 : ℚ) ≤ ((overrideAmount rnd.rAmount : ℤ) : ℚ) := by exact_mod_cast hlb
      linarith
    · intro hv
      rw [extract_vendor_def, if_pos h, if_neg hv]
    · intro hv
      rw [extract_vendor_def, if_pos h, if_pos hv]
      exact pickAt_mem randomVendors rnd.rVendor (by decide) h2 h3
  · intro hc ha
    have hno : ¬ (conf < 60 ∨ resolveAmount text = 0) := by
      intro hcontra
      rcases hcontra with h | h
      · exact hc h
      · exact ha h
    constructor
    · rw [extract_amount_def, if_neg hno]
    · rw [extract_vendor_def, if_neg hno]

/-- Witness for C2 at the claim's own instance: confidence 90 with no
pattern match (amount 0) still fires the override and yields a positive
amount; confidence 90 with a parsed positive amount replaces nothing. -/
theorem C2_override_rule_witness :
    0 < (extractExpenseFromOCR "blank scan".toList 90 [] [] [] 0 2025 ⟨0, 0, 0, 0⟩).amount
    ∧ (extractExpenseFromOCR "total ₹400".toList 90 [] [] [] 0 2025 ⟨0, 0, 0, 0⟩).amount =
        resolveAmount "total ₹400".toList := by
  constructor
  · have hz : resolveAmount "blank scan".toList = 0 := by
      unfold resolveAmount totalAmounts rupeeAmounts
      rw [show totalCaptures "blank scan".toList = [] from by decide,
          show rupeeCaptures "blank scan".toList = [] from by decide]
      rfl
    exact ((C2_override_rule "blank scan".toList 90 [] [] [] 0 2025 ⟨0, 0, 0, 0⟩
      (by norm_num) (by norm_num) (by norm_num) (by norm_num)).1 (Or.inr hz)).2.1
  · have hnz : resolveAmount "total ₹400".toList ≠ 0 := by
      have h4 : resolveAmount "total ₹400".toList = 400 := by
        unfold resolveAmount totalAmounts
        rw [show totalCaptures "total ₹400".toList = [("400".toList, [])] from by decide]
        simp only [List.map]
        rw [numValue_of_digits _ _ 400 0 (by decide) (by decide)]
        norm_num
      rw [h4]
      norm_num
    exact ((C2_override_rule "total ₹400".toList 90 [] [] [] 0 2025 ⟨0, 0, 0, 0⟩
      (by norm_num) (by norm_num) (by norm_num) (by norm_num)).2 (by norm_num) hnz).1

/-- C5 counterexample: 25000 is not a possible output of either
synthetic-amount draw — the claimed inclusive upper end of the range is
unreachable for every valid `Math.random()` result. -/
theorem C5_range_cex :
    (¬ ∃ r : ℚ, 0 ≤ r ∧ r < 1 ∧ overrideAmount r = 25000)
    ∧ (¬ ∃ r : ℚ, 0 ≤ r ∧ r < 1 ∧ mockAmount r = 25000) := by
  constructor
  · rintro ⟨r, _, h1, h⟩
    have := overrideAmount_ub r h1
    omega
  · rintro ⟨r, _, h1, h⟩
    have := mockAmount_ub r h1
    omega

/-- C5 amended: in both synthetic-amount paths the drawn amount is an
integer in [1250, 24999] (the upper bound 25000 is exclusive), and
every integer in that range is attained by both draws. -/
theorem C5_synthetic_range :
    (∀ r : ℚ, 0 ≤ r → r < 1 →
      1250 ≤ overrideAmount r ∧ overrideAmount r ≤ 24999
      ∧ 1250 ≤ mockAmount r ∧ mockAmount r ≤ 24999)
    ∧ (∀ n : ℤ, 1250 ≤ n → n ≤ 24999 →
      ∃ r : ℚ, 0 ≤ r ∧ r < 1 ∧ overrideAmount r = n ∧ mockAmount r = n) := by
  constructor
  · intro r h0 h1
    exact ⟨overrideAmount_lb r h0, overrideAmount_ub r h1, mockAmount_lb r h0,
      mockAmount_ub r h1⟩
  · intro n hlo hhi
    refine ⟨((n : ℚ) - 1250) / 23750, ?_, ?_, ?_, ?_⟩
    · have h : (1250 : ℚ) ≤ (n : ℚ) := by exact_mod_cast hlo
      exact div_nonneg (by linarith) (by norm_num)
    · have : (n : ℚ) ≤ 24999 := by exact_mod_cast hhi
      rw [div_lt_one (by norm_num)]
      linarith
    · unfold overrideAmount
      have hyp : ((n : ℚ) - 1250) / 23750 * (25000 - 1250) + 1250 = (n : ℚ) := by
        field_simp
        ring
      rw [hyp, Int.floor_intCast]
    · unfold mockAmount
      have hyp : ((n : ℚ) - 1250) / 23750 * 23750 = (n : ℚ) - 1250 := by
        field_simp
      rw [hyp]
      have : ((n : ℚ) - 1250) = ((n - 1250 : ℤ) : ℚ) := by push_cast; ring
      rw [this, Int.floor_intCast]
      omega

/-- Witness for C5 at concrete inputs: the draw at r = 0 gives 1250 in
both paths, and 24999 is attained. -/
theorem C5_synthetic_range_witness :
    (1250 ≤ overrideAmount 0 ∧ overrideAmount 0 ≤ 24999
      ∧ 1250 ≤ mockAmount 0 ∧ mockAmount 0 ≤ 24999)
    ∧ ∃ r : ℚ, 0 ≤ r ∧ r < 1 ∧ overrideAmount r = 24999 ∧ mockAmount r = 24999 :=
  ⟨C5_synthetic_range.1 0 (by norm_num) (by norm_num),
   C5_synthetic_range.2 24999 (by norm_num) (by norm_num)⟩

/-- C6 counterexample: with confidence 45 and a successfully parsed
amount of 8000, the redraw can land on 8000 again — at the random draw
r = 6750/23750 the final record's amount is exactly 8000, refuting
"the final record's amount is never 8000". -/
theorem C6_redraw_cex :
    resolveAmount "Total: ₹8,000".toList = 8000
    ∧ (extractExpenseFromOCR "Total: ₹8,000".toList 45 [] [] [] 0 2025
        ⟨6750 / 23750, 0, 0, 0⟩).amount = 8000 := by
  have h8 : resolveAmount "Total: ₹8,000".toList = 8000 := by
    unfold resolveAmount totalAmounts
    rw [show totalCaptures "Total: ₹8,000".toList = [("8000".toList, [])] from by decide]
    simp only [List.map]
    rw [numValue_of_digits _ _ 8000 0 (by decide) (by decide)]
    norm_num
  refine ⟨h8, ?_⟩
  rw [extract_amount_def, if_pos (Or.inl (by norm_num))]
  have : overrideAmount (6750 / 23750) = 8000 := by
    unfold overrideAmount
    norm_num
  rw [this]
  norm_num

/-- C6 amended: with confidence below 60 the override fires regardless
of the parsed amount: the final amount is the synthetic draw, an
integer in [1250, 24999]; the parsed value (8000) is discarded, though
the draw may coincide with it. -/
theorem C6_override_discards_parsed (text : List Char) (conf : ℚ) (fn uid today : List Char)
    (now year : ℕ) (rnd : OcrRand) (hconf : conf < 60) (h0 : 0 ≤ rnd.rAmount)
    (h1 : rnd.rAmount < 1) :
    (extractExpenseFromOCR text conf fn uid today now year rnd).amount =
      ((overrideAmount rnd.rAmount : ℤ) : ℚ)
    ∧ (1250 : ℚ) ≤ (extractExpenseFromOCR text conf fn uid today now year rnd).amount
    ∧ (extractExpenseFromOCR text conf fn uid today now year rnd).amount ≤ 24999 := by
  have hfire : (extractExpenseFromOCR text conf fn uid today now year rnd).amount =
      ((overrideAmount rnd.rAmount : ℤ) : ℚ) := by
    rw [extract_amount_def, if_pos (Or.inl hconf)]
  refine ⟨hfire, ?_, ?_⟩
  · rw [hfire]
    exact_mod_cast overrideAmount_lb rnd.rAmount h0
  · rw [hfire]
    exact_mod_cast overrideAmount_ub rnd.rAmount h1

/-- Witness for C6 amended: at confidence 45 on a text parsing to 8000,
with draw r = 0 the final amount is the synthetic 1250, within range. -/
theorem C6_override_discards_parsed_witness :
    (extractExpenseFromOCR "Total: ₹8,000".toList 45 [] [] [] 0 2025 ⟨0, 0, 0, 0⟩).amount =
      ((overrideAmount 0 : ℤ) : ℚ)
    ∧ (1250 : ℚ) ≤ (extractExpenseFromOCR "Total: ₹8,000".toList 45 [] [] [] 0 2025
        ⟨0, 0, 0, 0⟩).amount
    ∧ (extractExpenseFromOCR "Total: ₹8,000".toList 45 [] [] [] 0 2025 ⟨0, 0, 0, 0⟩).amount
        ≤ 24999 :=
  C6_override_discards_parsed "Total: ₹8,000".toList 45 [] [] [] 0 2025 ⟨0, 0, 0, 0⟩
    (by norm_num) (by norm_num) (by norm_num)

/-- C3: every record produced by the Field Extractor or the Fallback
Generator has a nonnegative amount, and the amount is never 0: when
extraction cannot establish a positive amount the override substitutes
a synthetic positive one. -/
theorem C3_amount_invariant (text : List Char) (conf : ℚ) (fn uid today : List Char)
    (now year : ℕ) (rnd : OcrRand) (uf : UploadedFile) (mtoday : List Char)
    (mnow myear : ℕ) (mrnd : MockRand) (h0 : 0 ≤ rnd.rAmount) (hm0 : 0 ≤ mrnd.rAmount) :
    (0 ≤ (extractExpenseFromOCR text conf fn uid today now year rnd).amount
      ∧ (extractExpenseFromOCR text conf fn uid today now year rnd).amount ≠ 0)
    ∧ (0 ≤ (generateMockExpense uf mtoday mnow myear mrnd).amount
      ∧ (generateMockExpense uf mtoday mnow myear mrnd).amount ≠ 0) := by
  constructor
  · rw [extract_amount_def]
    by_cases h : conf < 60 ∨ resolveAmount text = 0
    · rw [if_pos h]
      have hlb : (1250 : ℚ) ≤ ((overrideAmount rnd.rAmount : ℤ) : ℚ) := by
        exact_mod_cast overrideAmount_lb rnd.rAmount h0
      constructor
      · linarith
      · intro hz
        rw [hz] at hlb
        norm_num at hlb
    · rw [if_neg h]
      push_neg at h
      exact ⟨resolveAmount_nonneg text, h.2⟩
  · have hamount : (generateMockExpense uf mtoday mnow myear mrnd).amount =
        ((mockAmount mrnd.rAmount : ℤ) : ℚ) := rfl
    rw [hamount]
    have hlb : (1250 : ℚ) ≤ ((mockAmount mrnd.rAmount : ℤ) : ℚ) := by
      exact_mod_cast mockAmount_lb mrnd.rAmount hm0
    constructor
    · linarith
    · intro hz
      rw [hz] at hlb
      norm_num at hlb

/-- Witness for C3 at a concrete extraction (no pattern match, draw 0)
and a concrete mock generation. -/
theorem C3_amount_invariant_witness :
    (0 ≤ (extractExpenseFromOCR [] 0 [] [] [] 0 2025 ⟨0, 0, 0, 0⟩).amount
      ∧ (extractExpenseFromOCR [] 0 [] [] [] 0 2025 ⟨0, 0, 0, 0⟩).amount ≠ 0)
    ∧ (0 ≤ (generateMockExpense
          ⟨[], [], 0, [], true, none, none, some 0⟩ [] 0 2025 ⟨0, 0, 0, 0, 0⟩).amount
      ∧ (generateMockExpense
          ⟨[], [], 0, [], true, none, none, some 0⟩ [] 0 2025 ⟨0, 0, 0, 0, 0⟩).amount ≠ 0) :=
  C3_amount_invariant [] 0 [] [] [] 0 2025 ⟨0, 0, 0, 0⟩
    ⟨[], [], 0, [], true, none, none, some 0⟩ [] 0 2025 ⟨0, 0, 0, 0, 0⟩
    (by norm_num) (by norm_num)

/-- C4 counterexample: on an acquisition failure the fallback path
appends exactly one ExpenseRecord, but that record does not carry
`confidence == 0` — the mock expense has no confidence field at all
(it is the UploadedFile that gets confidence 0). -/
theorem C4_fallback_confidence_cex :
    (processFileWithOCR ⟨[], []⟩ (Except.error () : AcqResult) "a.png".toList 100 [] []
        "2026-10-12".toList 5 2026 ⟨0, 0, 0, 0⟩ ⟨0, 0, 0, 0, 0⟩).1.expenses.length = 1
    ∧ ∀ e ∈ (processFileWithOCR ⟨[], []⟩ (Except.error () : AcqResult) "a.png".toList 100 [] []
        "2026-10-12".toList 5 2026 ⟨0, 0, 0, 0⟩ ⟨0, 0, 0, 0, 0⟩).1.expenses,
        e.confidence = none ∧ e.confidence ≠ some 0 := by
  constructor
  · rfl
  · intro e he
    have h : e = generateMockExpense
        ⟨"upload_".toList ++ natToDigits 5, "a.png".toList, 100, [], true, some [], none,
          some 0⟩ "2026-10-12".toList 5 2026 ⟨0, 0, 0, 0, 0⟩ := by
      simpa [processFileWithOCR, processFallbackData] using he
    subst h
    refine ⟨rfl, ?_⟩
    intro hc
    simp [generateMockExpense] at hc

/-- C4 amended: for every upload whose acquisition fails, the fallback
path appends exactly one UploadedFile (with `confidence = 0`) and
exactly one ExpenseRecord (which carries no confidence value), and no
failure is surfaced to the user. -/
theorem C4_fallback_append (st : Stores) (filename : List Char) (filesize : ℕ)
    (fileData uploadDate today : List Char) (now year : ℕ) (ornd : OcrRand) (mrnd : MockRand) :
    ∃ uf e,
      (processFileWithOCR st (Except.error () : AcqResult) filename filesize fileData
          uploadDate today now year ornd mrnd).1 =
        ⟨st.uploads ++ [uf], st.expenses ++ [e]⟩
      ∧ uf.confidence = some 0
      ∧ e = generateMockExpense uf today now year mrnd
      ∧ e.confidence = none
      ∧ (processFileWithOCR st (Except.error () : AcqResult) filename filesize fileData
          uploadDate today now year ornd mrnd).2 = none := by
  refine ⟨⟨"upload_".toList ++ natToDigits now, filename, filesize, uploadDate, true,
    some fileData, none, some 0⟩, generateMockExpense
      ⟨"upload_".toList ++ natToDigits now, filename, filesize, uploadDate, true,
        some fileData, none, some 0⟩ today now year mrnd, rfl, rfl, rfl, rfl, rfl⟩

/-- C8: `getExpenseSummary` on an empty store returns all-zero
aggregates (the count-0 branch avoids the division) and the fixed
default top category. -/
theorem C8_empty_summary (currentMonth : List Char) :
    getExpenseSummary [] currentMonth =
      ⟨0, 0, 0, 0, "Office Supplies".toList⟩ := rfl

/-- C10: date detection validates no day/month ranges: on a text
containing "13/13/13" the date pattern matches with month capture "13",
whose numeric value exceeds 12, and the record's date field becomes the
non-calendar string "2013-13-13". -/
theorem C10_unvalidated_date :
    firstDate "Invoice dated 13/13/13".toList =
      some ("13".toList, "13".toList, "13".toList)
    ∧ (extractExpenseFromOCR "Invoice dated 13/13/13".toList 90 [] []
        "2026-10-12".toList 0 2026 ⟨0, 0, 0, 0⟩).date = "2013-13-13".toList
    ∧ 12 < digitsToNat "13".toList := by
  refine ⟨by decide, ?_, by decide⟩
  rw [extract_date_def]
  decide

theorem optGt_true_elim (a b : Option ℚ) (h : optGt a b = true) :
    ∃ x y, a = some x ∧ b = some y ∧ y < x := by
  cases a with
  | none => simp [optGt] at h
  | some x =>
    cases b with
    | none => simp [optGt] at h
    | some y => exact ⟨x, y, rfl, rfl, of_decide_eq_true h⟩

theorem optLe_refl (a : Option ℚ) : optLe a a := fun x hx => ⟨x, hx, le_refl x⟩

theorem optLe_trans (a b c : Option ℚ) (h1 : optLe a b) (h2 : optLe b c) : optLe a c := by
  intro x hx
  obtain ⟨y, hy, hxy⟩ := h1 x hx
  obtain ⟨z, hz, hyz⟩ := h2 y hy
  exact ⟨z, hz, le_trans hxy hyz⟩

theorem optLe_of_optGt_false (a b : Option ℚ) (hb : ∃ v, b = some v)
    (h : ¬ optGt a b = true) : optLe a b := by
  intro x hx
  obtain ⟨v, hv⟩ := hb
  refine ⟨v, hv, ?_⟩
  subst hx
  subst hv
  have h2 : decide (v < x) = false := by
    simpa [optGt] using h
  exact not_lt.mp (of_decide_eq_false h2)

theorem optLe_of_optGt_true (a b : Option ℚ) (h : optGt a b = true) : optLe b a := by
  obtain ⟨x, y, hx, hy, hlt⟩ := optGt_true_elim a b h
  intro z hz
  rw [hy] at hz
  exact ⟨x, hx, by injection hz with h2; exact h2 ▸ le_of_lt hlt⟩

/-- Monotonicity of the `topCategory` reduce: the accumulated key's
total never decreases, so the final key's total dominates the initial
key's total and every scanned key's total. -/
theorem pickFold_mono (tot : List Char → Option ℚ) (keys : List (List Char)) :
    ∀ init, (∀ k ∈ keys, ∃ v, tot k = some v) →
      optLe (tot init) (tot (keys.foldl (pickArg tot) init))
      ∧ ∀ k ∈ keys, optLe (tot k) (tot (keys.foldl (pickArg tot) init)) := by
  induction keys with
  | nil =>
    intro init _
    exact ⟨optLe_refl _, fun k hk => absurd hk (List.not_mem_nil k)⟩
  | cons b keys ih =>
    intro init htot
    have htot2 : ∀ k ∈ keys, ∃ v, tot k = some v :=
      fun k hk => htot k (List.mem_cons_of_mem b hk)
    simp only [List.foldl_cons]
    by_cases hgt : optGt (tot init) (tot b) = true
    · rw [show pickArg tot init b = init from by rw [pickArg, if_pos hgt]]
      have hres := ih init htot2
      refine ⟨hres.1, ?_⟩
      intro k hk
      rcases List.mem_cons.mp hk with rfl | hk2
      · exact optLe_trans _ _ _ (optLe_of_optGt_true _ _ hgt) hres.1
      · exact hres.2 k hk2
    · rw [show pickArg tot init b = b from by rw [pickArg, if_neg hgt]]
      have hres := ih b htot2
      have hinit : optLe (tot init) (tot b) :=
        optLe_of_optGt_false _ _ (htot b (List.mem_cons_self b keys)) hgt
      refine ⟨optLe_trans _ _ _ hinit hres.1, ?_⟩
      intro k hk
      rcases List.mem_cons.mp hk with rfl | hk2
      · exact hres.1
      · exact hres.2 k hk2

/-- Position of the `topCategory` reduce result: it occurs in the
initial-prefixed key sequence and strictly beats every key scanned
after it — ties are therefore resolved towards the later key. -/
theorem pickFold_split (tot : List Char → Option ℚ) (keys : List (List Char)) :
    ∀ init, ∃ l₁ l₂, init :: keys = l₁ ++ (keys.foldl (pickArg tot) init) :: l₂
      ∧ ∀ k ∈ l₂, optGt (tot (keys.foldl (pickArg tot) init)) (tot k) = true := by
  induction keys with
  | nil =>
    intro init
    exact ⟨[], [], rfl, fun k hk => absurd hk (List.not_mem_nil k)⟩
  | cons b keys ih =>
    intro init
    simp only [List.foldl_cons]
    by_cases hgt : optGt (tot init) (tot b) = true
    · rw [show pickArg tot init b = init from by rw [pickArg, if_pos hgt]]
      obtain ⟨l₁, l₂, heq, hprop⟩ := ih init
      cases l₁ with
      | nil =>
        injection heq with h1 h2
        refine ⟨[], b :: keys, ?_, ?_⟩
        · rw [← h1]
          simp
        · intro k hk
          rcases List.mem_cons.mp hk with rfl | hk2
          · rw [← h1]
            exact hgt
          · exact hprop k (h2 ▸ hk2)
      | cons x l₁t =>
        injection heq with h1 h2
        refine ⟨init :: b :: l₁t, l₂, ?_, hprop⟩
        conv_lhs => rw [h2]
        rfl
    · rw [show pickArg tot init b = b from by rw [pickArg, if_neg hgt]]
      obtain ⟨l₁, l₂, heq, hprop⟩ := ih b
      refine ⟨init :: l₁, l₂, ?_, hprop⟩
      rw [List.cons_append, ← heq]

theorem addTotal_ne_nil (l : List (List Char × ℚ)) (k : List Char) (v : ℚ) :
    addTotal l k v ≠ [] := by
  cases l with
  | nil => simp [addTotal]
  | cons p t =>
    obtain ⟨pk, pv⟩ := p
    simp only [addTotal]
    by_cases h : pk = k
    · rw [if_pos h]
      simp
    · rw [if_neg h]
      simp

theorem foldl_addTotal_ne_nil (es : List Expense) :
    ∀ acc : List (List Char × ℚ), acc ≠ [] →
      es.foldl (fun a e => addTotal a e.category e.amount) acc ≠ [] := by
  induction es with
  | nil => intro acc h; exact h
  | cons e es ih =>
    intro acc _
    rw [List.foldl_cons]
    exact ih _ (addTotal_ne_nil acc e.category e.amount)

theorem categoryTotals_ne_nil (es : List Expense) (h : es ≠ []) : categoryTotals es ≠ [] := by
  cases es with
  | nil => exact absurd rfl h
  | cons e es =>
    unfold categoryTotals
    rw [List.foldl_cons]
    exact foldl_addTotal_ne_nil es _ (addTotal_ne_nil [] e.category e.amount)

theorem addTotal_cons_eq (pk : List Char) (pv : ℚ) (t : List (List Char × ℚ))
    (k : List Char) (v : ℚ) :
    addTotal ((pk, pv) :: t) k v =
      if pk = k then (pk, pv + v) :: t else (pk, pv) :: addTotal t k v := rfl

theorem mem_keys_addTotal (l : List (List Char × ℚ)) (k : List Char) (v : ℚ) (x : List Char) :
    x ∈ (addTotal l k v).map (fun p => p.1) ↔ x ∈ l.map (fun p => p.1) ∨ x = k := by
  induction l with
  | nil => simp [addTotal]
  | cons p t ih =>
    obtain ⟨pk, pv⟩ := p
    rw [addTotal_cons_eq]
    by_cases h : pk = k
    · subst h
      rw [if_pos rfl]
      simp only [List.map_cons, List.mem_cons]
      tauto
    · rw [if_neg h]
      simp only [List.map_cons, List.mem_cons, ih]
      tauto

theorem nodup_keys_addTotal (l : List (List Char × ℚ)) (k : List Char) (v : ℚ)
    (h : (l.map (fun p => p.1)).Nodup) : ((addTotal l k v).map (fun p => p.1)).Nodup := by
  induction l with
  | nil => simp [addTotal]
  | cons p t ih =>
    obtain ⟨pk, pv⟩ := p
    simp only [List.map_cons, List.nodup_cons] at h
    rw [addTotal_cons_eq]
    by_cases hk : pk = k
    · subst hk
      rw [if_pos rfl]
      simp only [List.map_cons, List.nodup_cons]
      exact ⟨h.1, h.2⟩
    · rw [if_neg hk]
      simp only [List.map_cons, List.nodup_cons]
      refine ⟨?_, ih h.2⟩
      intro hmem
      rcases (mem_keys_addTotal t k v pk).mp hmem with hm | hm
      · exact h.1 hm
      · exact hk hm

theorem foldl_addTotal_nodup (es : List Expense) :
    ∀ acc : List (List Char × ℚ), (acc.map (fun p => p.1)).Nodup →
      ((es.foldl (fun a e => addTotal a e.category e.amount) acc).map (fun p => p.1)).Nodup := by
  induction es with
  | nil => intro acc h; exact h
  | cons e es ih =>
    intro acc h
    rw [List.foldl_cons]
    exact ih _ (nodup_keys_addTotal acc e.category e.amount h)

theorem categoryTotals_nodup (es : List Expense) :
    ((categoryTotals es).map (fun p => p.1)).Nodup :=
  foldl_addTotal_nodup es [] (by simp)

theorem lookupTotal_cons (p : List Char × ℚ) (t : List (List Char × ℚ)) (k : List Char) :
    lookupTotal (p :: t) k = if p.1 = k then some p.2 else lookupTotal t k := by
  by_cases h : p.1 = k
  · simp [lookupTotal, List.find?_cons, h]
  · simp [lookupTotal, List.find?_cons, h]

theorem lookupTotal_of_mem_keys (l : List (List Char × ℚ)) (k : List Char)
    (h : k ∈ l.map (fun p => p.1)) : ∃ v, lookupTotal l k = some v := by
  induction l with
  | nil => simp at h
  | cons p t ih =>
    rw [lookupTotal_cons]
    by_cases hk : p.1 = k
    · rw [if_pos hk]
      exact ⟨p.2, rfl⟩
    · rw [if_neg hk]
      simp only [List.map_cons, List.mem_cons] at h
      rcases h with h | h
      · exact absurd h.symm hk
      · exact ih h

theorem lookupTotal_mem (l : List (List Char × ℚ)) (hnd : (l.map (fun p => p.1)).Nodup) :
    ∀ p ∈ l, lookupTotal l p.1 = some p.2 := by
  induction l with
  | nil => intro p hp; cases hp
  | cons q t ih =>
    simp only [List.map_cons, List.nodup_cons] at hnd
    intro p hp
    rcases List.mem_cons.mp hp with rfl | hp2
    · rw [lookupTotal_cons, if_pos rfl]
    · rw [lookupTotal_cons, if_neg ?_, ih hnd.2 p hp2]
      intro hq
      apply hnd.1
      rw [hq]
      exact List.mem_map.mpr ⟨p, hp2, rfl⟩

/-- C7 counterexample: two categories with equal summed amounts, in
iteration order CatA then CatB; the code returns CatB, the
last-encountered one, not the first-encountered CatA the claim
requires. -/
theorem C7_tie_cex :
    categoryTotals [sampleExpense "CatA".toList 100, sampleExpense "CatB".toList 100] =
      [("CatA".toList, 100), ("CatB".toList, 100)]
    ∧ (getExpenseSummary [sampleExpense "CatA".toList 100, sampleExpense "CatB".toList 100]
        "2026-10".toList).topCategory = "CatB".toList
    ∧ "CatB".toList ≠ "CatA".toList := by
  refine ⟨by decide, by decide, by decide⟩

/-- C7 amended: on an empty store `topCategory` is the fixed sentinel
'Office Supplies'.  On a non-empty store it is a category of maximal
summed amount, and every key occurring after it in the (sentinel-
prefixed) iteration order has a strictly smaller total — i.e. ties are
broken in favor of the LAST-encountered category, not the first. -/
theorem C7_top_category (expenses : List Expense) (m : List Char) (hne : expenses ≠ []) :
    (∀ m2 : List Char, (getExpenseSummary [] m2).topCategory = "Office Supplies".toList)
    ∧ (∃ v, lookupTotal (categoryTotals expenses)
          ((getExpenseSummary expenses m).topCategory) = some v
        ∧ ∀ p ∈ categoryTotals expenses, p.2 ≤ v)
    ∧ (∃ l₁ l₂,
        "Office Supplies".toList :: (categoryTotals expenses).map (fun p => p.1) =
          l₁ ++ (getExpenseSummary expenses m).topCategory :: l₂
        ∧ ∀ k ∈ l₂,
            optGt (lookupTotal (categoryTotals expenses)
                ((getExpenseSummary expenses m).topCategory))
              (lookupTotal (categoryTotals expenses) k) = true) := by
  have htc : (getExpenseSummary expenses m).topCategory =
      ((categoryTotals expenses).map (fun p => p.1)).foldl
        (pickArg (lookupTotal (categoryTotals expenses))) "Office Supplies".toList := rfl
  have hnodup := categoryTotals_nodup expenses
  have htot : ∀ k ∈ (categoryTotals expenses).map (fun p => p.1),
      ∃ v, lookupTotal (categoryTotals expenses) k = some v :=
    fun k hk => lookupTotal_of_mem_keys _ k hk
  have hmono := pickFold_mono (lookupTotal (categoryTotals expenses))
    ((categoryTotals expenses).map (fun p => p.1)) "Office Supplies".toList htot
  have hsplit := pickFold_split (lookupTotal (categoryTotals expenses))
    ((categoryTotals expenses).map (fun p => p.1)) "Office Supplies".toList
  refine ⟨fun m2 => rfl, ?_, ?_⟩
  · have hctne : categoryTotals expenses ≠ [] := categoryTotals_ne_nil expenses hne
    obtain ⟨p0, hp0⟩ := List.exists_mem_of_ne_nil _ hctne
    have hp0k : lookupTotal (categoryTotals expenses) p0.1 = some p0.2 :=
      lookupTotal_mem _ hnodup p0 hp0
    obtain ⟨v, hv, _⟩ := hmono.2 p0.1 (List.mem_map.mpr ⟨p0, hp0, rfl⟩) p0.2 hp0k
    refine ⟨v, htc ▸ hv, ?_⟩
    intro p hp
    have hpk : lookupTotal (categoryTotals expenses) p.1 = some p.2 :=
      lookupTotal_mem _ hnodup p hp
    obtain ⟨y, hy, hle⟩ := hmono.2 p.1 (List.mem_map.mpr ⟨p, hp, rfl⟩) p.2 hpk
    rw [hv] at hy
    injection hy with hy2
    exact hy2 ▸ hle
  · obtain ⟨l₁, l₂, heq, hprop⟩ := hsplit
    exact ⟨l₁, l₂, htc ▸ heq, htc ▸ hprop⟩

/-- Witness for C7 at a concrete two-category store with distinct
totals. -/
theorem C7_top_category_witness :
    ∃ v, lookupTotal
        (categoryTotals [sampleExpense "Travel".toList 50, sampleExpense "Equipment".toList 80])
        ((getExpenseSummary [sampleExpense "Travel".toList 50, sampleExpense "Equipment".toList 80]
          "2026-10".toList).topCategory) = some v
      ∧ ∀ p ∈ categoryTotals
          [sampleExpense "Travel".toList 50, sampleExpense "Equipment".toList 80], p.2 ≤ v :=
  (C7_top_category [sampleExpense "Travel".toList 50, sampleExpense "Equipment".toList 80]
    "2026-10".toList (by decide)).2.1

theorem foldl_add_eq_sum (es : List Expense) :
    ∀ s0 : ℚ, es.foldl (fun s e => s + e.amount) s0 = s0 + (es.map (fun e => e.amount)).sum := by
  induction es with
  | nil => intro s0; simp
  | cons e es ih =>
    intro s0
    rw [List.foldl_cons, ih, List.map_cons, List.sum_cons]
    ring

theorem addTotal_sum_values (l : List (List Char × ℚ)) (k : List Char) (v : ℚ) :
    ((addTotal l k v).map (fun p => p.2)).sum = (l.map (fun p => p.2)).sum + v := by
  induction l with
  | nil => simp [addTotal]
  | cons p t ih =>
    obtain ⟨pk, pv⟩ := p
    rw [addTotal_cons_eq]
    by_cases hk : pk = k
    · rw [if_pos hk]
      simp only [List.map_cons, List.sum_cons]
      ring
    · rw [if_neg hk]
      simp only [List.map_cons, List.sum_cons, ih]
      ring

theorem foldl_addTotal_sum (es : List Expense) :
    ∀ acc : List (List Char × ℚ),
      ((es.foldl (fun a e => addTotal a e.category e.amount) acc).map (fun p => p.2)).sum =
        (acc.map (fun p => p.2)).sum + (es.map (fun e => e.amount)).sum := by
  induction es with
  | nil => intro acc; simp
  | cons e es ih =>
    intro acc
    rw [List.foldl_cons, ih, addTotal_sum_values, List.map_cons, List.sum_cons]
    ring

theorem ct_sum_values (es : List Expense) :
    ((categoryTotals es).map (fun p => p.2)).sum = (es.map (fun e => e.amount)).sum := by
  have h := foldl_addTotal_sum es []
  simpa [categoryTotals] using h

theorem lookupTotal_addTotal (l : List (List Char × ℚ)) (k : List Char) (v : ℚ) (x : List Char) :
    (lookupTotal (addTotal l k v) x).getD 0 =
      (lookupTotal l x).getD 0 + if x = k then v else 0 := by
  induction l with
  | nil =>
    by_cases h : x = k
    · subst h
      rw [show addTotal [] x v = [(x, v)] from rfl, lookupTotal_cons, if_pos rfl]
      simp [lookupTotal]
    · rw [show addTotal [] k v = [(k, v)] from rfl, lookupTotal_cons,
        if_neg (fun hh => h hh.symm), if_neg h]
      simp [lookupTotal]
  | cons p t ih =>
    obtain ⟨pk, pv⟩ := p
    rw [addTotal_cons_eq]
    by_cases hk : pk = k
    · subst hk
      rw [if_pos rfl, lookupTotal_cons, lookupTotal_cons]
      by_cases hx : pk = x
      · subst hx
        rw [if_pos rfl, if_pos rfl, if_pos rfl]
        simp
      · rw [if_neg hx, if_neg hx, if_neg (fun hh => hx hh.symm)]
        simp
    · rw [if_neg hk, lookupTotal_cons, lookupTotal_cons]
      by_cases hx : pk = x
      · rw [if_pos hx, if_pos hx, if_neg (fun hh => hk (hx.trans hh))]
        simp
      · rw [if_neg hx, if_neg hx, ih]

theorem foldl_addTotal_entry (es : List Expense) :
    ∀ (acc : List (List Char × ℚ)) (x : List Char),
      (lookupTotal (es.foldl (fun a e => addTotal a e.category e.amount) acc) x).getD 0 =
        (lookupTotal acc x).getD 0 +
          ((es.filter (fun e => e.category = x)).map (fun e => e.amount)).sum := by
  induction es with
  | nil => intro acc x; simp
  | cons e es ih =>
    intro acc x
    rw [List.foldl_cons, ih, lookupTotal_addTotal]
    by_cases h : e.category = x
    · rw [if_pos h.symm, List.filter_cons_of_pos (by simp [h])]
      rw [List.map_cons, List.sum_cons]
      ring
    · rw [if_neg (fun hh => h hh.symm), List.filter_cons_of_neg (by simp [h])]
      ring

theorem ct_entry_sum (es : List Expense) (q : List Char × ℚ) (hq : q ∈ categoryTotals es) :
    q.2 = ((es.filter (fun e => e.category = q.1)).map (fun e => e.amount)).sum := by
  have h1 := lookupTotal_mem _ (categoryTotals_nodup es) q hq
  have h2 : (lookupTotal (categoryTotals es) q.1).getD 0 =
      (lookupTotal ([] : List (List Char × ℚ)) q.1).getD 0 +
        ((es.filter (fun e => e.category = q.1)).map (fun e => e.amount)).sum :=
    foldl_addTotal_entry es [] q.1
  rw [h1] at h2
  simpa [lookupTotal] using h2

theorem keys_sub_foldl (es : List Expense) :
    ∀ (acc : List (List Char × ℚ)) (k : List Char), k ∈ acc.map (fun p => p.1) →
      k ∈ ((es.foldl (fun a e => addTotal a e.category e.amount) acc).map (fun p => p.1)) := by
  induction es with
  | nil => intro acc k h; exact h
  | cons e es ih =>
    intro acc k h
    rw [List.foldl_cons]
    exact ih _ k ((mem_keys_addTotal acc e.category e.amount k).mpr (Or.inl h))

theorem mem_cat_keys (es : List Expense) :
    ∀ (acc : List (List Char × ℚ)) (e : Expense), e ∈ es →
      e.category ∈ ((es.foldl (fun a e => addTotal a e.category e.amount) acc).map
        (fun p => p.1)) := by
  induction es with
  | nil => intro acc e h; cases h
  | cons e2 es ih =>
    intro acc e h
    rw [List.foldl_cons]
    rcases List.mem_cons.mp h with rfl | h2
    · exact keys_sub_foldl es _ e.category
        ((mem_keys_addTotal acc e.category e.amount e.category).mpr (Or.inr rfl))
    · exact ih _ e h2

theorem jsRound_le (q : ℚ) : ((jsRound q : ℤ) : ℚ) ≤ q + 1 / 2 := Int.floor_le _

theorem lt_jsRound (q : ℚ) : q - 1 / 2 < ((jsRound q : ℤ) : ℚ) := by
  have h := Int.lt_floor_add_one (q + 1 / 2)
  unfold jsRound
  linarith

theorem sum_jsRound_ub (l : List ℚ) :
    (((l.map jsRound).sum : ℤ) : ℚ) ≤ l.sum + (l.length : ℚ) / 2 := by
  induction l with
  | nil => simp
  | cons a t ih =>
    simp only [List.map_cons, List.sum_cons, List.length_cons]
    rw [Int.cast_add, show ((t.length + 1 : ℕ) : ℚ) = (t.length : ℚ) + 1 from by push_cast; ring]
    have ha := jsRound_le a
    linarith

theorem sum_jsRound_lb (l : List ℚ) :
    l.sum - (l.length : ℚ) / 2 ≤ (((l.map jsRound).sum : ℤ) : ℚ) := by
  induction l with
  | nil => simp
  | cons a t ih =>
    simp only [List.map_cons, List.sum_cons, List.length_cons]
    rw [Int.cast_add, show ((t.length + 1 : ℕ) : ℚ) = (t.length : ℚ) + 1 from by push_cast; ring]
    have ha := lt_jsRound a
    linarith

theorem sum_map_div (l : List (List Char × ℚ)) (T : ℚ) :
    (l.map (fun p => p.2 / T * 100)).sum = (l.map (fun p => p.2)).sum / T * 100 := by
  induction l with
  | nil => simp
  | cons p t ih =>
    simp only [List.map_cons, List.sum_cons, ih]
    ring

theorem getCategoryData_eq (es : List Expense) :
    getCategoryData es = (categoryTotals es).map
      (fun p => (p.1, p.2, jsRound (p.2 / (es.foldl (fun s e => s + e.amount) 0) * 100))) := rfl

/-- C9: the category breakdown gives each category present its summed
amount and its percentage of the grand total rounded to the nearest
integer (`Math.round`), and the percentages sum to 100 up to a rounding
error of at most 1 per category.  The positivity hypothesis encodes
that stores only ever hold system-produced records, whose amounts are
positive. -/
theorem C9_category_percentages (expenses : List Expense) (hne : expenses ≠ [])
    (hpos : ∀ e ∈ expenses, 0 < e.amount) :
    (∀ p ∈ getCategoryData expenses,
        p.2.1 = ((expenses.filter (fun e => e.category = p.1)).map (fun e => e.amount)).sum
        ∧ p.2.2 = jsRound (p.2.1 / (expenses.foldl (fun s e => s + e.amount) 0) * 100))
    ∧ (∀ e ∈ expenses, ∃ p ∈ getCategoryData expenses, p.1 = e.category)
    ∧ (100 - ((getCategoryData expenses).length : ℤ) ≤
        ((getCategoryData expenses).map (fun p => p.2.2)).sum
      ∧ ((getCategoryData expenses).map (fun p => p.2.2)).sum ≤
        100 + ((getCategoryData expenses).length : ℤ)) := by
  have hT : expenses.foldl (fun s e => s + e.amount) 0 =
      (expenses.map (fun e => e.amount)).sum := by
    rw [foldl_add_eq_sum]
    ring
  have hTpos : 0 < expenses.foldl (fun s e => s + e.amount) 0 := by
    rw [hT]
    apply List.sum_pos
    · intro x hx
      obtain ⟨e, he, rfl⟩ := List.mem_map.mp hx
      exact hpos e he
    · simpa using hne
  refine ⟨?_, ?_, ?_⟩
  · intro p hp
    rw [getCategoryData_eq] at hp
    obtain ⟨q, hq, rfl⟩ := List.mem_map.mp hp
    exact ⟨ct_entry_sum expenses q hq, rfl⟩
  · intro e he
    have hkey : e.category ∈ (categoryTotals expenses).map (fun p => p.1) :=
      mem_cat_keys expenses [] e he
    obtain ⟨q, hq, hqe⟩ := List.mem_map.mp hkey
    refine ⟨(q.1, q.2, jsRound (q.2 / (expenses.foldl (fun s e => s + e.amount) 0) * 100)),
      ?_, hqe⟩
    rw [getCategoryData_eq]
    exact List.mem_map.mpr ⟨q, hq, rfl⟩
  · have hdata : ((getCategoryData expenses).map (fun p => p.2.2)) =
        ((categoryTotals expenses).map
          (fun p => p.2 / (expenses.foldl (fun s e => s + e.amount) 0) * 100)).map jsRound := by
      rw [getCategoryData_eq]
      simp only [List.map_map]
      rfl
    have hlsum : ((categoryTotals expenses).map
        (fun p => p.2 / (expenses.foldl (fun s e => s + e.amount) 0) * 100)).sum = 100 := by
      rw [sum_map_div, ct_sum_values, ← hT, div_self (ne_of_gt hTpos)]
      norm_num
    have hlen : ((categoryTotals expenses).map
        (fun p => p.2 / (expenses.foldl (fun s e => s + e.amount) 0) * 100)).length =
        (getCategoryData expenses).length := by
      rw [getCategoryData_eq, List.length_map, List.length_map]
    have hub := sum_jsRound_ub ((categoryTotals expenses).map
        (fun p => p.2 / (expenses.foldl (fun s e => s + e.amount) 0) * 100))
    have hlb := sum_jsRound_lb ((categoryTotals expenses).map
        (fun p => p.2 / (expenses.foldl (fun s e => s + e.amount) 0) * 100))
    rw [hlsum, hlen, ← hdata] at hub hlb
    have hn : (0 : ℚ) ≤ ((getCategoryData expenses).length : ℚ) := by positivity
    constructor
    · exact_mod_cast (by linarith : ((100 : ℚ) - ((getCategoryData expenses).length : ℚ)) ≤
        ((((getCategoryData expenses).map (fun p => p.2.2)).sum : ℤ) : ℚ))
    · exact_mod_cast
        (by linarith : ((((getCategoryData expenses).map (fun p => p.2.2)).sum : ℤ) : ℚ) ≤
          (100 : ℚ) + ((getCategoryData expenses).length : ℚ))

/-- Witness for C9 at a concrete two-category store. -/
theorem C9_category_percentages_witness :
    100 - ((getCategoryData
        [sampleExpense "Travel".toList 50, sampleExpense "Equipment".toList 80]).length : ℤ) ≤
      ((getCategoryData
        [sampleExpense "Travel".toList 50, sampleExpense "Equipment".toList 80]).map
          (fun p => p.2.2)).sum
    ∧ ((getCategoryData
        [sampleExpense "Travel".toList 50, sampleExpense "Equipment".toList 80]).map
          (fun p => p.2.2)).sum ≤
      100 + ((getCategoryData
        [sampleExpense "Travel".toList 50, sampleExpense "Equipment".toList 80]).length : ℤ) :=
  (C9_category_percentages
    [sampleExpense "Travel".toList 50, sampleExpense "Equipment".toList 80]
    (by decide) (by decide)).2.2
